import Mathlib

/-!
Verification of the sightglass comparison engine (crates/analysis/src/effect_size.rs and
crates/data/src/lib.rs) against its natural-language specification.

Floating-point values (f64) are modelled as rationals; machine strings as Lean strings
(Rust compares str by bytes, and byte order on UTF-8 agrees with the code-point order
used by Lean strings). Fallible code returns Except or Option; a Rust panic is modelled
as Option.none.
-/

namespace Sightglass

/-- A phase in a Wasm program's lifecycle (crates/data/src/lib.rs). -/
inductive Phase where
  | Compilation
  | Instantiation
  | Execution
deriving DecidableEq

/-- Position of a phase in the declaration order, mirroring the derived Ord on Phase. -/
def Phase.idx : Phase → Nat
  | .Compilation => 0
  | .Instantiation => 1
  | .Execution => 2

/-- Display impl for Phase (crates/data/src/lib.rs, impl std::fmt::Display). -/
def Phase.fmt : Phase → String
  | .Compilation => "compilation"
  | .Instantiation => "instantiation"
  | .Execution => "execution"

/-- Rust str::to_ascii_lowercase: basic latin letters are lowered, every other
character is kept. Char.toLower of the Lean core library is exactly this ASCII-only
case folding; mapping it over the character list is the same function as
String.toLower, written with structural recursion. -/
def asciiLower (s : String) : String :=
  ⟨s.data.map Char.toLower⟩

/-- FromStr impl for Phase (crates/data/src/lib.rs): ASCII-lowercase the input, then
match it against the three tokens; anything else is an error. -/
def Phase.from_str (s : String) : Except String Phase :=
  let t := asciiLower s
  if t = "compilation" then Except.ok Phase.Compilation
  else if t = "instantiation" then Except.ok Phase.Instantiation
  else if t = "execution" then Except.ok Phase.Execution
  else Except.error "invalid phase"

/-- A single measurement (crates/data/src/lib.rs, struct Measurement). -/
structure Measurement where
  arch : String
  engine : String
  engine_flags : String
  wasm : String
  process : Nat
  iteration : Nat
  phase : Phase
  event : String
  count : Nat
deriving DecidableEq

/-- The combination of engine and flags used for a measurement
(crates/data/src/lib.rs, Measurement::engine_and_flags). -/
def Measurement.engine_and_flags (m : Measurement) : String × String :=
  (m.engine, m.engine_flags)

/-- A summary of grouped measurements (crates/data/src/lib.rs, struct Summary). -/
structure Summary where
  arch : String
  engine : String
  engine_flags : String
  wasm : String
  phase : Phase
  event : String
  min : Nat
  max : Nat
  median : Nat
  mean : ℚ
  mean_deviation : ℚ
deriving DecidableEq

/-- One engine's side of a comparison (crates/data/src/lib.rs, struct EngineResult). -/
structure EngineResult where
  engine : String
  engine_flags : String
  mean : ℚ
deriving DecidableEq

/-- The effect size between two different engines (crates/data/src/lib.rs,
struct EffectSize). -/
structure EffectSize where
  arch : String
  wasm : String
  phase : Phase
  event : String
  a_results : EngineResult
  b_results : EngineResult
  significance_level : ℚ
  half_width_confidence_interval : ℚ
deriving DecidableEq

/-- EffectSize::is_significant (crates/data/src/lib.rs). -/
def EffectSize.is_significant (e : EffectSize) : Bool :=
  decide (|e.a_results.mean - e.b_results.mean| > |e.half_width_confidence_interval|)

/-- EffectSize::b_speed_up_over_a (crates/data/src/lib.rs). -/
def EffectSize.b_speed_up_over_a (e : EffectSize) : ℚ × ℚ :=
  (e.b_results.mean / e.a_results.mean,
   e.half_width_confidence_interval / e.a_results.mean)

/-- EffectSize::a_speed_up_over_b (crates/data/src/lib.rs). -/
def EffectSize.a_speed_up_over_b (e : EffectSize) : ℚ × ℚ :=
  (e.a_results.mean / e.b_results.mean,
   e.half_width_confidence_interval / e.b_results.mean)

/-- Lexicographic order on character lists by code point. Rust compares str values by
bytes, and on UTF-8 encodings the byte order coincides with this code-point order. -/
def strLtB : List Char → List Char → Bool
  | [], [] => false
  | [], _ :: _ => true
  | _ :: _, [] => false
  | a :: as, b :: bs =>
    if a.toNat < b.toNat then true
    else if b.toNat < a.toNat then false
    else strLtB as bs

/-- Rust's strict order on str values (byte order, equivalently code-point order). -/
def strLt (a b : String) : Bool :=
  strLtB a.data b.data

/-- Rust's non-strict order on str values. -/
def strLe (a b : String) : Bool :=
  strLt a b || decide (a = b)

/-- The order in which a BTreeSet of (&str, &str) pairs iterates: lexicographic on the
pair with Rust's string order. -/
def pairLe (p q : String × String) : Prop :=
  strLt p.1 q.1 = true ∨ (p.1 = q.1 ∧ strLe p.2 q.2 = true)

/-- Strict version of the pair order. -/
def pairLt (p q : String × String) : Prop :=
  strLt p.1 q.1 = true ∨ (p.1 = q.1 ∧ strLt p.2 q.2 = true)

instance : DecidableRel pairLe := fun p q => by
  unfold pairLe; infer_instance

instance : DecidableRel pairLt := fun p q => by
  unfold pairLt; infer_instance

theorem charEq_of_toNat {a b : Char} (h : a.toNat = b.toNat) : a = b :=
  Char.eq_of_val_eq (UInt32.toNat.inj h)

theorem strDataEq {a b : String} (h : a.data = b.data) : a = b := by
  cases a; cases b; congr 1

theorem strLtB_irrefl : ∀ as, strLtB as as = false := by
  intro as
  induction as with
  | nil => rfl
  | cons a as ih => simp [strLtB, ih]

theorem strLtB_trichotomy : ∀ as bs, strLtB as bs = true ∨ as = bs ∨ strLtB bs as = true := by
  intro as
  induction as with
  | nil =>
    intro bs
    cases bs with
    | nil => exact Or.inr (Or.inl rfl)
    | cons b bs => exact Or.inl rfl
  | cons a as ih =>
    intro bs
    cases bs with
    | nil => exact Or.inr (Or.inr rfl)
    | cons b bs =>
      by_cases hab : a.toNat < b.toNat
      · exact Or.inl (by simp [strLtB, hab])
      · by_cases hba : b.toNat < a.toNat
        · exact Or.inr (Or.inr (by simp [strLtB, hba]))
        · have hEq : a = b := charEq_of_toNat (by omega)
          rcases ih bs with h | h | h
          · exact Or.inl (by simp [strLtB, hab, hba, h])
          · exact Or.inr (Or.inl (by rw [hEq, h]))
          · subst hEq
            exact Or.inr (Or.inr (by simp [strLtB, hab, hba, h]))

theorem strLtB_trans : ∀ as bs cs, strLtB as bs = true → strLtB bs cs = true →
    strLtB as cs = true := by
  intro as
  induction as with
  | nil =>
    intro bs cs h1 h2
    cases bs with
    | nil => exact h2
    | cons b bs =>
      cases cs with
      | nil => simp [strLtB] at h2
      | cons c cs => rfl
  | cons a as ih =>
    intro bs cs h1 h2
    cases bs with
    | nil => simp [strLtB] at h1
    | cons b bs =>
      cases cs with
      | nil => simp [strLtB] at h2
      | cons c cs =>
        simp only [strLtB] at h1 h2 ⊢
        rcases Nat.lt_trichotomy a.toNat b.toNat with hab | hab | hab <;>
          rcases Nat.lt_trichotomy b.toNat c.toNat with hbc | hbc | hbc
        · simp [Nat.lt_trans hab hbc]
        · simp [show a.toNat < c.toNat by omega]
        · rw [if_neg (by omega), if_pos hbc] at h2
          exact absurd h2 (by simp)
        · simp [show a.toNat < c.toNat by omega]
        · rw [if_neg (by omega), if_neg (by omega)] at h1 h2 ⊢
          exact ih bs cs h1 h2
        · rw [if_neg (by omega), if_pos hbc] at h2
          exact absurd h2 (by simp)
        · rw [if_neg (by omega), if_pos hab] at h1
          exact absurd h1 (by simp)
        · rw [if_neg (by omega), if_pos hab] at h1
          exact absurd h1 (by simp)
        · rw [if_neg (by omega), if_pos hab] at h1
          exact absurd h1 (by simp)

theorem strLe_iff {a b : String} : strLe a b = true ↔ (strLt a b = true ∨ a = b) := by
  simp [strLe]

theorem strLe_trans {a b c : String} (h1 : strLe a b = true) (h2 : strLe b c = true) :
    strLe a c = true := by
  rcases strLe_iff.mp h1 with h1' | h1' <;> rcases strLe_iff.mp h2 with h2' | h2'
  · exact strLe_iff.mpr (Or.inl (strLtB_trans _ _ _ h1' h2'))
  · exact strLe_iff.mpr (Or.inl (h2' ▸ h1'))
  · subst h1'
    exact strLe_iff.mpr (Or.inl h2')
  · subst h1'
    exact strLe_iff.mpr (Or.inr h2')

instance : IsTotal (String × String) pairLe where
  total p q := by
    rcases strLtB_trichotomy p.1.data q.1.data with h | h | h
    · exact Or.inl (Or.inl h)
    · have h1 : p.1 = q.1 := strDataEq h
      rcases strLtB_trichotomy p.2.data q.2.data with h2 | h2 | h2
      · exact Or.inl (Or.inr ⟨h1, strLe_iff.mpr (Or.inl h2)⟩)
      · exact Or.inl (Or.inr ⟨h1, strLe_iff.mpr (Or.inr (strDataEq h2))⟩)
      · exact Or.inr (Or.inr ⟨h1.symm, strLe_iff.mpr (Or.inl h2)⟩)
    · exact Or.inr (Or.inl h)

instance : IsTrans (String × String) pairLe where
  trans p q s hpq hqs := by
    rcases hpq with h1 | ⟨h1, h1'⟩ <;> rcases hqs with h2 | ⟨h2, h2'⟩
    · exact Or.inl (strLtB_trans _ _ _ h1 h2)
    · exact Or.inl (h2 ▸ h1)
    · exact Or.inl (h1.symm ▸ h2)
    · exact Or.inr ⟨h1.trans h2, strLe_trans h1' h2'⟩

/-- The sorted list of distinct (engine, engine_flags) identities of a measurement list,
modelling the BTreeSet built in calculate (crates/analysis/src/effect_size.rs): same
elements, no duplicates, iterated in ascending pair order. -/
def enginesOf (ms : List Measurement) : List (String × String) :=
  List.insertionSort pairLe (ms.map Measurement.engine_and_flags).dedup

/-- Modelled from the spec: the Grouping Key produced by the Key Extractor
(crates/analysis/src/keys.rs is not under src/). Per spec section 4.1 and the data
model, a fully-resolved key holds (architecture, benchmark program, phase, event) and
excludes engine and engine flags. -/
structure Key where
  arch : String
  wasm : String
  phase : Phase
  event : String
deriving DecidableEq

/-- Modelled from the spec: key.matches(measurement) is true iff every field set in the
key equals the corresponding field of the measurement (spec section 4.1); all four
fields of a fully-resolved key are set. -/
def Key.matches (k : Key) (m : Measurement) : Bool :=
  k.arch == m.arch && k.wasm == m.wasm && k.phase == m.phase && k.event == m.event

/-- The fully-resolved key of a single measurement. -/
def keyOfMeasurement (m : Measurement) : Key :=
  ⟨m.arch, m.wasm, m.phase, m.event⟩

/-- Lexicographic order on keys by field values (arch, wasm, phase, event), the stable
iteration order required by spec section 4.1. -/
def keyLe (k j : Key) : Prop :=
  strLt k.arch j.arch = true ∨ (k.arch = j.arch ∧
    (strLt k.wasm j.wasm = true ∨ (k.wasm = j.wasm ∧
      (k.phase.idx < j.phase.idx ∨ (k.phase.idx = j.phase.idx ∧
        strLe k.event j.event = true)))))

instance : DecidableRel keyLe := fun k j => by
  unfold keyLe; infer_instance

/-- Modelled from the spec: all_groups (KeyBuilder::all().engine(false).keys) returns
one key per distinct (arch, wasm, phase, event) combination observed among the input
measurements, in stable lexicographically sorted order (spec section 4.1). -/
def keysOf (ms : List Measurement) : List Key :=
  List.insertionSort keyLe (ms.map keyOfMeasurement).dedup

/-- Arithmetic mean of a sample, as computed by collecting into behrens_fisher::Stats. -/
def sampleMean (xs : List ℚ) : ℚ :=
  xs.sum / xs.length

/-- Unbiased sample variance (spec section 4.2, step 1). -/
def sampleVar (xs : List ℚ) : ℚ :=
  (xs.map (fun x => (x - sampleMean xs) ^ 2)).sum / ((xs.length : ℚ) - 1)

/-- The error kinds of report generation (spec section 7). All errors of calculate are
values of this type; the Rust code returns them through anyhow::Result. -/
inductive CalcError where
  | invalidParameter
  | groupCardinality (observed : Nat)
  | insufficientData
deriving DecidableEq

/-- Modelled from the spec: the Welch/Behrens-Fisher significance test
(behrens_fisher::confidence_interval; spec section 4.2), whose source is not under
src/. Fails with InsufficientData when either sample has fewer than 2 observations and
with InvalidParameter when the confidence level does not lie strictly between 0 and 1
(spec sections 4.2 and 7). Steps 1-3 (standard error and Welch-Satterthwaite degrees
of freedom) are computed exactly; the final irrational step (the two-sided Student-t
critical value times the square root of the squared standard error, steps 4-5) is
abstracted as the parameter tq, applied to the degrees of freedom, the confidence
level and the squared standard error. -/
def ciModel (tq : ℚ → ℚ → ℚ → ℚ) (confidence_level : ℚ) (xa xb : List ℚ) :
    Except CalcError ℚ :=
  if xa.length < 2 ∨ xb.length < 2 then Except.error CalcError.insufficientData
  else if ¬ (0 < confidence_level ∧ confidence_level < 1) then
    Except.error CalcError.invalidParameter
  else
    let sea := sampleVar xa / (xa.length : ℚ)
    let seb := sampleVar xb / (xb.length : ℚ)
    let df := (sea + seb) ^ 2 /
      (sea ^ 2 / ((xa.length : ℚ) - 1) + seb ^ 2 / ((xb.length : ℚ) - 1))
    Except.ok (tq df confidence_level (sea + seb))

/-- The measurements of one comparison group (the filter in the per-key loop of
calculate, crates/analysis/src/effect_size.rs). -/
def groupMeasurements (ms : List Measurement) (k : Key) : List Measurement :=
  ms.filter (fun m => k.matches m)

/-- The body of the per-key loop of calculate (crates/analysis/src/effect_size.rs):
collect the distinct engine identities, insist on exactly two, split the samples, run
the significance test and build the EffectSize record. -/
def calcGroup (tq : ℚ → ℚ → ℚ → ℚ) (significance_level : ℚ)
    (ms : List Measurement) (k : Key) : Except CalcError EffectSize :=
  let km := groupMeasurements ms k
  let engines := enginesOf km
  if h : engines.length = 2 then
    let engine_a := engines.get ⟨0, by omega⟩
    let engine_b := engines.get ⟨1, by omega⟩
    let aSample := (km.filter (fun m => m.engine_and_flags = engine_a)).map
      (fun m => (m.count : ℚ))
    let bSample := (km.filter (fun m => m.engine_and_flags = engine_b)).map
      (fun m => (m.count : ℚ))
    match ciModel tq (1 - significance_level) aSample bSample with
    | Except.error e => Except.error e
    | Except.ok ci =>
      Except.ok
        { arch := k.arch
          wasm := k.wasm
          phase := k.phase
          event := k.event
          a_results :=
            { engine := engine_a.1
              engine_flags := engine_a.2
              mean := sampleMean aSample }
          b_results :=
            { engine := engine_b.1
              engine_flags := engine_b.2
              mean := sampleMean bSample }
          significance_level := significance_level
          half_width_confidence_interval := ci }
  else
    Except.error (CalcError.groupCardinality engines.length)

/-- The per-key loop of calculate: process the keys in order, pushing each result and
propagating the first error (the question-mark operator of the Rust for loop). -/
def calcAll (tq : ℚ → ℚ → ℚ → ℚ) (significance_level : ℚ)
    (ms : List Measurement) : List Key → Except CalcError (List EffectSize)
  | [] => Except.ok []
  | k :: ks =>
    match calcGroup tq significance_level ms k with
    | Except.error e => Except.error e
    | Except.ok r =>
      match calcAll tq significance_level ms ks with
      | Except.error e => Except.error e
      | Except.ok rs => Except.ok (r :: rs)

/-- calculate (crates/analysis/src/effect_size.rs): reject a significance level outside
the closed unit interval, then process every group. -/
def calculate (tq : ℚ → ℚ → ℚ → ℚ) (significance_level : ℚ)
    (ms : List Measurement) : Except CalcError (List EffectSize) :=
  if 0 ≤ significance_level ∧ significance_level ≤ 1 then
    calcAll tq significance_level ms (keysOf ms)
  else
    Except.error CalcError.invalidParameter

/-- The larger of the two directional speedup ratios, the secondary sort key of write
(crates/analysis/src/effect_size.rs). -/
def maxES (e : EffectSize) : ℚ :=
  max e.a_speed_up_over_b.1 e.b_speed_up_over_a.1

/-- The comparator of the stable sort in write (crates/analysis/src/effect_size.rs):
x may precede y exactly when the comparator does not return Greater, that is, when
y is below x on (is_significant, max speedup), both descending. -/
def writeLe (x y : EffectSize) : Prop :=
  (y.is_significant = false ∧ x.is_significant = true) ∨
  (y.is_significant = x.is_significant ∧ maxES y ≤ maxES x)

instance : DecidableRel writeLe := fun x y => by
  unfold writeLe; infer_instance

instance : IsTotal EffectSize writeLe where
  total x y := by
    by_cases h : x.is_significant = y.is_significant
    · rcases le_total (maxES x) (maxES y) with h2 | h2
      · exact Or.inr (Or.inr ⟨h, h2⟩)
      · exact Or.inl (Or.inr ⟨h.symm, h2⟩)
    · cases hx : x.is_significant <;> cases hy : y.is_significant
      · exact absurd (hx.trans hy.symm) h
      · exact Or.inr (Or.inl ⟨hx, hy⟩)
      · exact Or.inl (Or.inl ⟨hy, hx⟩)
      · exact absurd (hx.trans hy.symm) h

instance : IsTrans EffectSize writeLe where
  trans x y z hxy hyz := by
    rcases hxy with ⟨h1, h1'⟩ | ⟨h1, h1'⟩ <;> rcases hyz with ⟨h2, h2'⟩ | ⟨h2, h2'⟩
    · exact absurd (h1.symm.trans h2') (by simp)
    · exact Or.inl ⟨h2.trans h1, h1'⟩
    · exact Or.inl ⟨h2, h1.symm.trans h2'⟩
    · exact Or.inr ⟨h2.trans h1, h2'.trans h1'⟩

/-- The stable sort performed by write before rendering
(crates/analysis/src/effect_size.rs, effect_sizes.sort_by). Rust's sort_by is a stable
sort; insertion sort is stable for the same comparator. -/
def sortEffectSizes (es : List EffectSize) : List EffectSize :=
  List.insertionSort writeLe es

/-- str::char_indices starting from a given byte offset: each character paired with its
byte offset, successive offsets advancing by the character's UTF-8 length. -/
def charIndicesFrom (i : Nat) : List Char → List (Nat × Char)
  | [] => []
  | c :: cs => (i, c) :: charIndicesFrom (i + c.utf8Size) cs

/-- The find_map closure of the shared-prefix computation in write: at a zipped pair
of char_indices entries, keep searching while the characters agree, otherwise yield
the byte offset in the first string. -/
def diffAt (p : (Nat × Char) × (Nat × Char)) : Option Nat :=
  if p.1.2 = p.2.2 then none else some p.1.1

/-- The end_of_shared_prefix computation of write (crates/analysis/src/effect_size.rs):
zip the char_indices of the two engine names, return the byte offset (in the first
string) of the first differing character, or 0 when no divergence point exists. -/
def sharedPrefixEnd (a b : String) : Nat :=
  (List.findSome? diffAt
    ((charIndicesFrom 0 a.data).zip (charIndicesFrom 0 b.data))).getD 0

/-- Dropping the first n bytes of a character list; on a character boundary this is the
string slice s[n..] of the Rust code. -/
def sliceChars (n : Nat) : List Char → List Char
  | [] => []
  | c :: cs => if n = 0 then c :: cs else sliceChars (n - c.utf8Size) cs

/-- The slice s[n..] taken by write after shared-prefix trimming. -/
def sliceFrom (s : String) (n : Nat) : String :=
  ⟨sliceChars n s.data⟩

/-- Total UTF-8 byte length of a character list. -/
def utf8Len (cs : List Char) : Nat :=
  (cs.map Char.utf8Size).sum

/-- The valid character-boundary byte offsets of a string: the byte lengths of all of
its character prefixes (including 0 and the total length). -/
def boundariesOf (s : String) : List Nat :=
  (List.range (s.data.length + 1)).map (fun k => utf8Len (s.data.take k))

/-- The length of the longest shared prefix of two character lists, by case-sensitive
character-wise comparison. -/
def lcpLen : List Char → List Char → Nat
  | a :: as, b :: bs => if a = b then lcpLen as bs + 1 else 0
  | _, _ => 0

/-- One rendered output line of write, at the granularity of the writeln calls of
crates/analysis/src/effect_size.rs, carrying the interpolated values. -/
inductive Line where
  | blank
  | header (phase : Phase) (event wasm : String)
  | delta (diff hwAbs confidencePct : ℚ)
  | faster (fastEngine fastSpace fastFlags : String) (ratioMin ratioMax : ℚ)
      (slowEngine slowSpace slowFlags : String)
  | noDifference
  | summaryLine (lo : Nat) (mean : ℚ) (hi : Nat) (engine : String)
deriving DecidableEq

/-- The get_summary lookup of write (crates/analysis/src/effect_size.rs): the first
Summary whose engine, engine_flags, wasm, phase and event fields equal the requested
ones (arch is not compared). The Rust code unwraps the result, so a None here makes
write panic. -/
def findSummary (summaries : List Summary) (engine engine_flags wasm : String)
    (phase : Phase) (event : String) : Option Summary :=
  summaries.find? (fun s =>
    s.engine == engine && s.engine_flags == engine_flags && s.wasm == wasm &&
    s.phase == phase && s.event == event)

/-- The body of the per-entry loop of write (crates/analysis/src/effect_size.rs):
header, shared-prefix trimming, the significant or no-difference block, and the two
summary context lines. none models the panic of the unwrapped summary lookups. -/
def renderEntry (summaries : List Summary) (significance_level : ℚ)
    (e : EffectSize) : Option (List Line) :=
  let n := sharedPrefixEnd e.a_results.engine e.b_results.engine
  let a_engine := sliceFrom e.a_results.engine n
  let b_engine := sliceFrom e.b_results.engine n
  let body :=
    if e.is_significant then
      let fast := if e.a_results.mean > e.b_results.mean then e.b_results else e.a_results
      let slow := if e.a_results.mean > e.b_results.mean then e.a_results else e.b_results
      let fast_engine := if e.a_results.mean > e.b_results.mean then b_engine else a_engine
      let slow_engine := if e.a_results.mean > e.b_results.mean then a_engine else b_engine
      let fast_space := if fast_engine ≠ "" ∧ fast.engine_flags ≠ "" then " " else ""
      let slow_space := if slow_engine ≠ "" ∧ slow.engine_flags ≠ "" then " " else ""
      let ratio := slow.mean / fast.mean
      let ratio_ci := e.half_width_confidence_interval / fast.mean
      [Line.delta (slow.mean - fast.mean) |e.half_width_confidence_interval|
         ((1 - significance_level) * 100),
       Line.blank,
       Line.faster fast_engine fast_space fast.engine_flags
         (ratio - ratio_ci) (ratio + ratio_ci) slow_engine slow_space slow.engine_flags]
    else
      [Line.noDifference]
  match findSummary summaries e.a_results.engine e.a_results.engine_flags
      e.wasm e.phase e.event with
  | none => none
  | some a_summary =>
    match findSummary summaries e.b_results.engine e.b_results.engine_flags
        e.wasm e.phase e.event with
    | none => none
    | some b_summary =>
      some ([Line.blank, Line.header e.phase e.event e.wasm, Line.blank] ++ body ++
        [Line.blank,
         Line.summaryLine a_summary.min a_summary.mean a_summary.max a_engine,
         Line.summaryLine b_summary.min b_summary.mean b_summary.max b_engine])

/-- The per-entry loop of write over the already-sorted effect sizes; a panic in any
entry makes the whole call panic (none). -/
def writeRender (summaries : List Summary) (significance_level : ℚ) :
    List EffectSize → Option (List Line)
  | [] => some []
  | e :: rest =>
    match renderEntry summaries significance_level e with
    | none => none
    | some ls =>
      match writeRender summaries significance_level rest with
      | none => none
      | some more => some (ls ++ more)

/-- write (crates/analysis/src/effect_size.rs): stable-sort the effect sizes, then
render each entry. The result is the list of emitted lines; none models a panic. -/
def write (effect_sizes : List EffectSize) (summaries : List Summary)
    (significance_level : ℚ) : Option (List Line) :=
  writeRender summaries significance_level (sortEffectSizes effect_sizes)

instance {ε α : Type} [DecidableEq ε] [DecidableEq α] : DecidableEq (Except ε α) :=
  fun x y =>
  match x, y with
  | .error a, .error b =>
    if h : a = b then isTrue (by rw [h]) else isFalse (by simp [h])
  | .error _, .ok _ => isFalse (by simp)
  | .ok _, .error _ => isFalse (by simp)
  | .ok a, .ok b =>
    if h : a = b then isTrue (by rw [h]) else isFalse (by simp [h])

/-! ## Claim theorems -/

/-- C3: for every EffectSize, is_significant() returns true iff the absolute mean
difference strictly exceeds the absolute half-width; on exact equality of the two the
result is false (the boundary is exclusive). -/
theorem C3_is_significant_iff : ∀ e : EffectSize,
    (e.is_significant = true ↔
      |e.a_results.mean - e.b_results.mean| > |e.half_width_confidence_interval|) ∧
    (|e.a_results.mean - e.b_results.mean| = |e.half_width_confidence_interval| →
      e.is_significant = false) := by
  intro e
  constructor
  · simp [EffectSize.is_significant]
  · intro h
    simp only [EffectSize.is_significant, h, gt_iff_lt, decide_eq_false_iff_not]
    exact lt_irrefl _

/-- Concrete witness for C3: an effect size whose mean difference exactly equals the
half-width is not significant. -/
def e3 : EffectSize :=
  { arch := "x86_64", wasm := "benchmark.wasm", phase := Phase.Execution
    event := "cycles"
    a_results := { engine := "a.so", engine_flags := "", mean := 3 }
    b_results := { engine := "b.so", engine_flags := "", mean := 1 }
    significance_level := 1/20
    half_width_confidence_interval := 2 }

/-- Witness for C3 at a concrete boundary input. -/
theorem C3_is_significant_witness : e3.is_significant = false :=
  (C3_is_significant_iff e3).2 (by norm_num [e3])

/-- C7: for nonzero means, the first components of the two speedup queries multiply to
exactly one (the model uses rationals, so the floating-point tolerance of the claim is
exact equality here), and each second component is the half-width divided by the
denominator engine's mean. -/
theorem C7_speedup_reciprocal : ∀ e : EffectSize,
    e.a_results.mean ≠ 0 → e.b_results.mean ≠ 0 →
    e.a_speed_up_over_b.1 * e.b_speed_up_over_a.1 = 1 ∧
    e.a_speed_up_over_b.2 = e.half_width_confidence_interval / e.b_results.mean ∧
    e.b_speed_up_over_a.2 = e.half_width_confidence_interval / e.a_results.mean := by
  intro e ha hb
  refine ⟨?_, rfl, rfl⟩
  simp only [EffectSize.a_speed_up_over_b, EffectSize.b_speed_up_over_a]
  field_simp

/-- Concrete effect size with nonzero means for the C7 witness. -/
def e7 : EffectSize :=
  { arch := "x86_64", wasm := "benchmark.wasm", phase := Phase.Execution
    event := "cycles"
    a_results := { engine := "a.so", engine_flags := "", mean := 2 }
    b_results := { engine := "b.so", engine_flags := "", mean := 5 }
    significance_level := 1/20
    half_width_confidence_interval := 3 }

/-- Witness for C7 at a concrete input with nonzero means. -/
theorem C7_speedup_reciprocal_witness :
    e7.a_speed_up_over_b.1 * e7.b_speed_up_over_a.1 = 1 ∧
    e7.a_speed_up_over_b.2 = e7.half_width_confidence_interval / e7.b_results.mean ∧
    e7.b_speed_up_over_a.2 = e7.half_width_confidence_interval / e7.a_results.mean :=
  C7_speedup_reciprocal e7 (by decide) (by decide)

/-- C9: Phase parsing accepts exactly the three tokens case-insensitively (ASCII case
folding, as the source lowercases the input before matching), maps each to the matching
constructor, errors on every other string, and parsing the display form of any phase
returns that phase. -/
theorem C9_phase_tokens_roundtrip :
    (∀ s : String,
      (Phase.from_str s = Except.ok Phase.Compilation ↔ asciiLower s = "compilation") ∧
      (Phase.from_str s = Except.ok Phase.Instantiation ↔ asciiLower s = "instantiation") ∧
      (Phase.from_str s = Except.ok Phase.Execution ↔ asciiLower s = "execution") ∧
      ((∃ err, Phase.from_str s = Except.error err) ↔
        ¬ (asciiLower s = "compilation" ∨ asciiLower s = "instantiation" ∨
           asciiLower s = "execution"))) ∧
    (∀ p : Phase, Phase.from_str p.fmt = Except.ok p) := by
  constructor
  · intro s
    simp only [Phase.from_str]
    split_ifs with h1 h2 h3 <;> simp_all
  · intro p
    cases p <;> rfl

theorem pairLt_of_pairLe_ne {p q : String × String} (h : pairLe p q) (hne : p ≠ q) :
    pairLt p q := by
  rcases h with h | ⟨h1, h2⟩
  · exact Or.inl h
  · rcases strLe_iff.mp h2 with h2' | h2'
    · exact Or.inr ⟨h1, h2'⟩
    · exact absurd (Prod.ext h1 h2') hne

theorem enginesOf_sorted (ms : List Measurement) : List.Sorted pairLe (enginesOf ms) :=
  List.sorted_insertionSort pairLe _

theorem enginesOf_nodup (ms : List Measurement) : (enginesOf ms).Nodup :=
  ((List.perm_insertionSort pairLe _).nodup_iff).mpr (List.nodup_dedup _)

theorem sorted_nodup_pairLt {l : List (String × String)} (hs : List.Sorted pairLe l)
    (hn : l.Nodup) (h : l.length = 2) :
    pairLt (l.get ⟨0, by omega⟩) (l.get ⟨1, by omega⟩) := by
  rcases List.length_eq_two.mp h with ⟨p, q, rfl⟩
  have hle : pairLe p q := List.rel_of_sorted_cons hs q (by simp)
  have hne : p ≠ q := by simpa using hn
  exact pairLt_of_pairLe_ne hle hne

theorem calcGroup_ok_engine_order {tq : ℚ → ℚ → ℚ → ℚ} {sl : ℚ}
    {ms : List Measurement} {k : Key} {e : EffectSize}
    (h : calcGroup tq sl ms k = Except.ok e) :
    pairLt (e.a_results.engine, e.a_results.engine_flags)
      (e.b_results.engine, e.b_results.engine_flags) := by
  simp only [calcGroup] at h
  split at h
  case isTrue h2 =>
    split at h
    · exact absurd h (by simp)
    · rw [Except.ok.injEq] at h
      subst h
      simpa using sorted_nodup_pairLt (enginesOf_sorted _) (enginesOf_nodup _) h2
  case isFalse h2 => exact absurd h (by simp)

theorem calcAll_ok_mem {tq : ℚ → ℚ → ℚ → ℚ} {sl : ℚ} {ms : List Measurement} :
    ∀ {ks : List Key} {res : List EffectSize},
    calcAll tq sl ms ks = Except.ok res →
    ∀ e ∈ res, ∃ k ∈ ks, calcGroup tq sl ms k = Except.ok e := by
  intro ks
  induction ks with
  | nil =>
    intro res h e he
    simp only [calcAll, Except.ok.injEq] at h
    subst h
    simp at he
  | cons k ks ih =>
    intro res h e he
    simp only [calcAll] at h
    cases h1 : calcGroup tq sl ms k with
    | error err => rw [h1] at h; exact absurd h (by simp)
    | ok r =>
      rw [h1] at h
      cases h2 : calcAll tq sl ms ks with
      | error err => rw [h2] at h; exact absurd h (by simp)
      | ok rs =>
        rw [h2] at h
        rw [Except.ok.injEq] at h
        subst h
        rcases List.mem_cons.mp he with rfl | he'
        · exact ⟨k, List.mem_cons_self k ks, h1⟩
        · obtain ⟨k', hk', hok⟩ := ih h2 e he'
          exact ⟨k', List.mem_cons_of_mem k hk', hok⟩

/-- C4: in every EffectSize emitted by calculate, the (engine, engine_flags) pair of
engine A is strictly smaller than that of engine B in lexicographic string order, for
every significance level, quantile function and measurement collection. -/
theorem C4_engine_order : ∀ (tq : ℚ → ℚ → ℚ → ℚ) (sl : ℚ) (ms : List Measurement)
    (res : List EffectSize), calculate tq sl ms = Except.ok res →
    ∀ e ∈ res, strLt e.a_results.engine e.b_results.engine = true ∨
      (e.a_results.engine = e.b_results.engine ∧
       strLt e.a_results.engine_flags e.b_results.engine_flags = true) := by
  intro tq sl ms res h e he
  unfold calculate at h
  split at h
  · obtain ⟨k, _, hok⟩ := calcAll_ok_mem h e he
    rcases calcGroup_ok_engine_order hok with h' | ⟨h1', h2'⟩
    · exact Or.inl h'
    · exact Or.inr ⟨h1', h2'⟩
  · exact absurd h (by simp)

/-- A quantile function for concrete witnesses: every critical value is zero. -/
def tq0 : ℚ → ℚ → ℚ → ℚ := fun _ _ _ => 0

/-- Four measurements of one comparison group: engines a.so and b.so, two counts each. -/
def ms4 : List Measurement :=
  [⟨"x86_64", "a.so", "", "w.wasm", 0, 0, Phase.Execution, "cycles", 100⟩,
   ⟨"x86_64", "a.so", "", "w.wasm", 0, 1, Phase.Execution, "cycles", 100⟩,
   ⟨"x86_64", "b.so", "", "w.wasm", 0, 0, Phase.Execution, "cycles", 200⟩,
   ⟨"x86_64", "b.so", "", "w.wasm", 0, 1, Phase.Execution, "cycles", 200⟩]

/-- The effect size calculate produces for ms4 with significance level 1/2 and the
zero quantile function. -/
def es4 : EffectSize :=
  { arch := "x86_64", wasm := "w.wasm", phase := Phase.Execution, event := "cycles"
    a_results := { engine := "a.so", engine_flags := "", mean := 100 }
    b_results := { engine := "b.so", engine_flags := "", mean := 200 }
    significance_level := 1/2
    half_width_confidence_interval := 0 }

unseal Rat.mul Rat.inv Rat.add Rat.sub in
/-- Witness for C4: the ordering holds on the concrete output of calculate on ms4. -/
theorem C4_engine_order_witness :
    strLt es4.a_results.engine es4.b_results.engine = true ∨
      (es4.a_results.engine = es4.b_results.engine ∧
       strLt es4.a_results.engine_flags es4.b_results.engine_flags = true) :=
  C4_engine_order tq0 (1/2) ms4 [es4] (by decide) es4 (by simp)

theorem ciModel_in_range (tq : ℚ → ℚ → ℚ → ℚ) (cl : ℚ) (xa xb : List ℚ)
    (h0 : 0 < cl) (h1 : cl < 1) :
    ciModel tq cl xa xb = Except.error CalcError.insufficientData ∨
    ∃ v, ciModel tq cl xa xb = Except.ok v := by
  unfold ciModel
  split_ifs with hx hy
  · exact Or.inl rfl
  · exact Or.inr ⟨_, rfl⟩
  · exact absurd ⟨h0, h1⟩ hy

theorem calcGroup_ne_invalid (tq : ℚ → ℚ → ℚ → ℚ) (sl : ℚ) (ms : List Measurement)
    (k : Key) (h0 : 0 < sl) (h1 : sl < 1) :
    calcGroup tq sl ms k ≠ Except.error CalcError.invalidParameter := by
  intro h
  simp only [calcGroup] at h
  split at h
  · split at h
    · next e heq =>
      rcases ciModel_in_range tq (1 - sl) _ _ (by linarith) (by linarith) with hci | ⟨v, hci⟩
      · rw [heq] at hci
        simp only [Except.error.injEq] at h hci
        rw [h] at hci
        exact absurd hci (by simp)
      · rw [heq] at hci
        exact absurd hci (by simp)
    · next v heq => exact absurd h (by simp)
  · exact absurd h (by simp)

theorem calcAll_ne_invalid (tq : ℚ → ℚ → ℚ → ℚ) (sl : ℚ) (ms : List Measurement)
    (h0 : 0 < sl) (h1 : sl < 1) :
    ∀ ks, calcAll tq sl ms ks ≠ Except.error CalcError.invalidParameter := by
  intro ks
  induction ks with
  | nil => simp [calcAll]
  | cons k ks ih =>
    intro h
    simp only [calcAll] at h
    cases hg : calcGroup tq sl ms k with
    | error e =>
      rw [hg] at h
      have he : e = CalcError.invalidParameter := by simpa using h
      rw [he] at hg
      exact calcGroup_ne_invalid tq sl ms k h0 h1 hg
    | ok r =>
      rw [hg] at h
      cases ha : calcAll tq sl ms ks with
      | error e =>
        rw [ha] at h
        have he : e = CalcError.invalidParameter := by simpa using h
        rw [he] at ha
        exact ih ha
      | ok rs =>
        rw [ha] at h
        exact absurd h (by simp)

/-- C2 (amended): calculate itself rejects exactly the significance levels outside the
closed interval [0,1] with InvalidParameter, before touching any group (so no effect
sizes are produced); conversely an InvalidParameter failure is only possible when the
level is outside the open interval (0,1), because for 0 < level < 1 the spec-modelled
significance test (whose InvalidParameter case fires when the confidence level 1 -
level is not strictly between 0 and 1) cannot raise it. With no measurements the
boundary values succeed; the C2 counterexample shows they are rejected through the
significance test once a group is present. -/
theorem C2_invalid_parameter_amended : ∀ (tq : ℚ → ℚ → ℚ → ℚ) (sl : ℚ)
    (ms : List Measurement),
    (¬ (0 ≤ sl ∧ sl ≤ 1) →
      calculate tq sl ms = Except.error CalcError.invalidParameter) ∧
    (calculate tq sl ms = Except.error CalcError.invalidParameter →
      sl ≤ 0 ∨ 1 ≤ sl) ∧
    (0 ≤ sl ∧ sl ≤ 1 → calculate tq sl [] = Except.ok []) := by
  intro tq sl ms
  refine ⟨?_, ?_, ?_⟩
  · intro h
    unfold calculate
    rw [if_neg h]
  · intro h
    by_contra hc
    push_neg at hc
    obtain ⟨hc0, hc1⟩ := hc
    unfold calculate at h
    rw [if_pos ⟨le_of_lt hc0, le_of_lt hc1⟩] at h
    exact calcAll_ne_invalid tq sl ms hc0 hc1 _ h
  · intro h
    unfold calculate
    rw [if_pos h]
    rfl

unseal Rat.mul Rat.inv Rat.add Rat.sub in
/-- C2 counterexample: the boundary significance level 0 lies inside [0,1], yet
calculate on a well-formed group (two engines, two samples each) fails with
InvalidParameter, because the spec-modelled significance test rejects the confidence
level 1 - 0 = 1, which is not strictly between 0 and 1. So the claimed equivalence
fails in the only-if direction, and the boundary values are not accepted whenever a
group is present. -/
theorem C2_counterexample :
    (0 ≤ (0:ℚ) ∧ (0:ℚ) ≤ 1) ∧
    calculate tq0 0 ms4 = Except.error CalcError.invalidParameter :=
  ⟨by norm_num, by decide⟩

/-- Witness for C2 at the concrete out-of-range level 3/2. -/
theorem C2_invalid_parameter_witness :
    calculate tq0 (3/2) ([] : List Measurement) =
      Except.error CalcError.invalidParameter :=
  (C2_invalid_parameter_amended tq0 (3/2) []).1 (by norm_num)

theorem calcAll_ok_forall (tq : ℚ → ℚ → ℚ → ℚ) (sl : ℚ) (ms : List Measurement) :
    ∀ ks res, calcAll tq sl ms ks = Except.ok res →
    ∀ k ∈ ks, ∃ r, calcGroup tq sl ms k = Except.ok r := by
  intro ks
  induction ks with
  | nil =>
    intro res h k hk
    simp at hk
  | cons k0 ks ih =>
    intro res h k hk
    simp only [calcAll] at h
    cases hg : calcGroup tq sl ms k0 with
    | error e => rw [hg] at h; exact absurd h (by simp)
    | ok r =>
      rw [hg] at h
      cases ha : calcAll tq sl ms ks with
      | error e => rw [ha] at h; exact absurd h (by simp)
      | ok rs =>
        rcases List.mem_cons.mp hk with rfl | hk'
        · exact ⟨r, hg⟩
        · exact ih rs ha k hk'

theorem calcAll_error_append (tq : ℚ → ℚ → ℚ → ℚ) (sl : ℚ) (ms : List Measurement) :
    ∀ (ks₁ : List Key) (k₀ : Key) (ks₂ : List Key) (e : CalcError),
    (∀ k ∈ ks₁, ∃ r, calcGroup tq sl ms k = Except.ok r) →
    calcGroup tq sl ms k₀ = Except.error e →
    calcAll tq sl ms (ks₁ ++ k₀ :: ks₂) = Except.error e := by
  intro ks₁
  induction ks₁ with
  | nil =>
    intro k₀ ks₂ e _ hk0
    simp only [List.nil_append, calcAll, hk0]
  | cons k ks ih =>
    intro k₀ ks₂ e hok hk0
    obtain ⟨r, hr⟩ := hok k (by simp)
    have hih := ih k₀ ks₂ e (fun k' hk' => hok k' (by simp [hk'])) hk0
    simp only [List.cons_append, calcAll, hr, List.append_eq, hih]

/-- C1 (amended): whenever a comparison group has a number of distinct engine
identities other than two (and the significance level passes the [0,1] check), the
whole calculate call fails: no result vector is returned for the other groups. The
error is the GroupCardinalityError carrying that group's observed identity count when
every group preceding it in key order succeeds; otherwise an earlier group's failure
(for example InsufficientData from the significance test, as in the C1 counterexample)
is returned instead. -/
theorem C1_cardinality_amended (tq : ℚ → ℚ → ℚ → ℚ) (sl : ℚ) (ms : List Measurement)
    (ks₁ ks₂ : List Key) (k₀ : Key)
    (h0 : 0 ≤ sl) (h1 : sl ≤ 1)
    (hdec : keysOf ms = ks₁ ++ k₀ :: ks₂)
    (hbad : (enginesOf (groupMeasurements ms k₀)).length ≠ 2) :
    (calculate tq sl ms).isOk = false ∧
    ((∀ k ∈ ks₁, ∃ r, calcGroup tq sl ms k = Except.ok r) →
      calculate tq sl ms =
        Except.error (CalcError.groupCardinality
          (enginesOf (groupMeasurements ms k₀)).length)) := by
  have hg : calcGroup tq sl ms k₀ =
      Except.error (CalcError.groupCardinality
        (enginesOf (groupMeasurements ms k₀)).length) := by
    simp only [calcGroup]
    rw [dif_neg hbad]
  constructor
  · cases hres : calculate tq sl ms with
    | error e => rfl
    | ok res =>
      unfold calculate at hres
      rw [if_pos ⟨h0, h1⟩] at hres
      obtain ⟨r, hr⟩ := calcAll_ok_forall tq sl ms _ res hres k₀ (by rw [hdec]; simp)
      rw [hg] at hr
      exact absurd hr (by simp)
  · intro hok
    unfold calculate
    rw [if_pos ⟨h0, h1⟩, hdec]
    exact calcAll_error_append tq sl ms ks₁ k₀ ks₂ _ hok hg

/-- Measurements with two groups: the group of a.wasm (first in key order) has two
engine identities but single-observation samples, the group of b.wasm has one engine
identity (a cardinality violation). -/
def msC1 : List Measurement :=
  [⟨"x86_64", "a.so", "", "a.wasm", 0, 0, Phase.Execution, "cycles", 100⟩,
   ⟨"x86_64", "b.so", "", "a.wasm", 0, 0, Phase.Execution, "cycles", 200⟩,
   ⟨"x86_64", "a.so", "", "b.wasm", 0, 0, Phase.Execution, "cycles", 100⟩]

/-- The violating group key of msC1. -/
def kBad : Key := ⟨"x86_64", "b.wasm", Phase.Execution, "cycles"⟩

unseal Rat.mul Rat.inv Rat.add Rat.sub in
/-- C1 counterexample: msC1 contains a comparison group with one engine identity, the
significance level 1/20 lies in [0,1], yet calculate fails with InsufficientData (the
earlier group's samples are too small for the significance test), not with an error
carrying an observed identity count. -/
theorem C1_counterexample :
    (0 ≤ (1/20 : ℚ) ∧ (1/20 : ℚ) ≤ 1) ∧
    kBad ∈ keysOf msC1 ∧
    (enginesOf (groupMeasurements msC1 kBad)).length = 1 ∧
    calculate tq0 (1/20) msC1 = Except.error CalcError.insufficientData ∧
    Except.error CalcError.insufficientData ≠
      (Except.error (CalcError.groupCardinality 1) :
        Except CalcError (List EffectSize)) :=
  ⟨by norm_num, by decide, by decide, by decide, by simp⟩

/-- A single measurement, hence a single group with one engine identity. -/
def msB : List Measurement :=
  [⟨"x86_64", "a.so", "", "w.wasm", 0, 0, Phase.Execution, "cycles", 100⟩]

/-- Witness for C1 on msB: its only group violates cardinality, the call fails and the
error carries the observed count 1. -/
theorem C1_cardinality_witness :
    (calculate tq0 (1/20) msB).isOk = false ∧
    calculate tq0 (1/20) msB = Except.error (CalcError.groupCardinality 1) := by
  have h := C1_cardinality_amended tq0 (1/20) msB [] []
    ⟨"x86_64", "w.wasm", Phase.Execution, "cycles"⟩ (by norm_num) (by norm_num)
    (by decide) (by decide)
  have hlen : (enginesOf (groupMeasurements msB
      ⟨"x86_64", "w.wasm", Phase.Execution, "cycles"⟩)).length = 1 := by decide
  have h2 := h.2 (by intro k hk; exact absurd hk (List.not_mem_nil k))
  rw [hlen] at h2
  exact ⟨h.1, h2⟩

theorem sortEffectSizes_perm (es : List EffectSize) : (sortEffectSizes es).Perm es :=
  List.perm_insertionSort writeLe es

theorem writeLe_of_keys_eq {x y : EffectSize} (h1 : x.is_significant = y.is_significant)
    (h2 : maxES x = maxES y) : writeLe x y :=
  Or.inr ⟨h1.symm, le_of_eq h2.symm⟩

theorem writeLe_imp {x y : EffectSize} (h : writeLe x y) :
    (x.is_significant = false → y.is_significant = false) ∧
    (x.is_significant = y.is_significant → maxES y ≤ maxES x) := by
  rcases h with ⟨h1, h2⟩ | ⟨h1, h2⟩
  · refine ⟨fun _ => h1, fun hxy => ?_⟩
    exact absurd ((h2.symm.trans hxy).trans h1) (by simp)
  · exact ⟨fun hx => h1.trans hx, fun _ => h2⟩

theorem filter_sort_stable (b : Bool) (q : ℚ) :
    ∀ l : List EffectSize,
      (List.insertionSort writeLe l).filter
          (fun e => e.is_significant == b && decide (maxES e = q)) =
        l.filter (fun e => e.is_significant == b && decide (maxES e = q)) := by
  intro l
  induction l with
  | nil => rfl
  | cons a l ih =>
    have hsplit := List.takeWhile_append_dropWhile
      (fun y => decide (¬ writeLe a y)) (List.insertionSort writeLe l)
    have hS : (List.insertionSort writeLe l).filter
        (fun e => e.is_significant == b && decide (maxES e = q)) =
        ((List.insertionSort writeLe l).takeWhile (fun y => decide (¬ writeLe a y))).filter
          (fun e => e.is_significant == b && decide (maxES e = q)) ++
        ((List.insertionSort writeLe l).dropWhile (fun y => decide (¬ writeLe a y))).filter
          (fun e => e.is_significant == b && decide (maxES e = q)) := by
      conv_lhs => rw [← hsplit]
      rw [List.filter_append]
    by_cases hpa : (a.is_significant == b && decide (maxES a = q)) = true
    · have htake : ((List.insertionSort writeLe l).takeWhile
          (fun y => decide (¬ writeLe a y))).filter
          (fun e => e.is_significant == b && decide (maxES e = q)) = [] := by
        rw [List.filter_eq_nil_iff]
        intro y hy hpy
        have hnle : ¬ writeLe a y := by simpa using List.mem_takeWhile_imp hy
        simp only [Bool.and_eq_true, beq_iff_eq, decide_eq_true_eq] at hpa hpy
        exact hnle (writeLe_of_keys_eq (hpa.1.trans hpy.1.symm) (hpa.2.trans hpy.2.symm))
      have hfc := fun xs : List EffectSize =>
        @List.filter_cons_of_pos EffectSize
          (fun e => e.is_significant == b && decide (maxES e = q)) a xs hpa
      simp only [List.insertionSort]
      rw [List.orderedInsert_eq_take_drop, List.filter_append, htake, List.nil_append,
        hfc, hfc]
      rw [hS, htake, List.nil_append] at ih
      rw [ih]
    · have hfc := fun xs : List EffectSize =>
        @List.filter_cons_of_neg EffectSize
          (fun e => e.is_significant == b && decide (maxES e = q)) a xs hpa
      simp only [List.insertionSort]
      rw [List.orderedInsert_eq_take_drop, List.filter_append, hfc, ← List.filter_append,
        hsplit, ih, hfc]

/-- C5: write stable-sorts the effect sizes before rendering; in the sorted order
every significant entry precedes every non-significant one and, within entries of
equal significance, the larger of the two directional speedup ratios is non-increasing;
the output is a permutation of the input, and entries tied on both sort keys keep
their original relative order (filtering the sorted list to any value of the key pair
gives exactly the filtered input). -/
theorem C5_sort_order : ∀ (es : List EffectSize) (ss : List Summary) (sl : ℚ),
    write es ss sl = writeRender ss sl (sortEffectSizes es) ∧
    (sortEffectSizes es).Perm es ∧
    List.Pairwise (fun x y =>
      (x.is_significant = false → y.is_significant = false) ∧
      (x.is_significant = y.is_significant → maxES y ≤ maxES x)) (sortEffectSizes es) ∧
    (∀ (b : Bool) (q : ℚ),
      (sortEffectSizes es).filter
          (fun e => e.is_significant == b && decide (maxES e = q)) =
        es.filter (fun e => e.is_significant == b && decide (maxES e = q))) := by
  intro es ss sl
  refine ⟨rfl, sortEffectSizes_perm es, ?_, ?_⟩
  · exact (List.sorted_insertionSort writeLe es).imp (fun h => writeLe_imp h)
  · intro b q
    exact filter_sort_stable b q es

theorem renderEntry_none_iff (ss : List Summary) (sl : ℚ) (e : EffectSize) :
    renderEntry ss sl e = none ↔
    (findSummary ss e.a_results.engine e.a_results.engine_flags e.wasm e.phase
        e.event = none ∨
     findSummary ss e.b_results.engine e.b_results.engine_flags e.wasm e.phase
        e.event = none) := by
  cases ha : findSummary ss e.a_results.engine e.a_results.engine_flags e.wasm e.phase
      e.event with
  | none =>
    simp only [renderEntry, ha]
    simp
  | some sa =>
    cases hb : findSummary ss e.b_results.engine e.b_results.engine_flags e.wasm e.phase
        e.event with
    | none =>
      simp only [renderEntry, ha, hb]
      simp
    | some sb =>
      simp only [renderEntry, ha, hb]
      simp

theorem writeRender_none_iff (ss : List Summary) (sl : ℚ) :
    ∀ es, writeRender ss sl es = none ↔ ∃ e ∈ es, renderEntry ss sl e = none := by
  intro es
  induction es with
  | nil => simp [writeRender]
  | cons e rest ih =>
    simp only [writeRender]
    cases he : renderEntry ss sl e with
    | none =>
      constructor
      · intro _
        exact ⟨e, List.mem_cons_self e rest, he⟩
      · intro _
        rfl
    | some ls =>
      cases hr : writeRender ss sl rest with
      | none =>
        constructor
        · intro _
          obtain ⟨x, hx, hxe⟩ := ih.mp hr
          exact ⟨x, List.mem_cons_of_mem e hx, hxe⟩
        · intro _
          rfl
      | some more =>
        constructor
        · intro h
          exact absurd h (by simp)
        · rintro ⟨x, hx, hxe⟩
          rcases List.mem_cons.mp hx with rfl | hx'
          · rw [he] at hxe
            exact absurd hxe (by simp)
          · have hcontra := ih.mpr ⟨x, hx', hxe⟩
            rw [hr] at hcontra
            exact absurd hcontra (by simp)

/-- C6 (amended): for every effect size it renders, write looks up a Summary whose
engine, engine_flags, wasm, phase and event fields equal those of engine A and then of
engine B; when no matching Summary exists the call panics (the Rust code unwraps the
failed lookup), modelled here as write returning none. The failure is a crash, not a
recoverable MissingSummary error value returned to the caller: write's error channel
has no such case. The equivalence characterizes exactly when the panic happens. -/
theorem C6_missing_summary_amended : ∀ (es : List EffectSize) (ss : List Summary)
    (sl : ℚ),
    write es ss sl = none ↔
    ∃ e ∈ es,
      findSummary ss e.a_results.engine e.a_results.engine_flags e.wasm e.phase
          e.event = none ∨
      findSummary ss e.b_results.engine e.b_results.engine_flags e.wasm e.phase
          e.event = none := by
  intro es ss sl
  unfold write
  rw [writeRender_none_iff]
  constructor
  · rintro ⟨e, he, hns⟩
    exact ⟨e, (sortEffectSizes_perm es).mem_iff.mp he,
      (renderEntry_none_iff ss sl e).mp hns⟩
  · rintro ⟨e, he, hns⟩
    exact ⟨e, (sortEffectSizes_perm es).mem_iff.mpr he,
      (renderEntry_none_iff ss sl e).mpr hns⟩

unseal Rat.mul Rat.inv Rat.add Rat.sub in
/-- C6 counterexample: with an empty summary collection the lookup for the concrete
effect size e3 finds no matching Summary, and write panics (returns none in the
model); no recoverable error value is returned to the caller. -/
theorem C6_counterexample : write [e3] [] (1/20) = none := by decide

theorem utf8Len_cons (c : Char) (cs : List Char) :
    utf8Len (c :: cs) = c.utf8Size + utf8Len cs := by
  simp [utf8Len]

theorem lcpLen_cons_self (a : Char) (as bs : List Char) :
    lcpLen (a :: as) (a :: bs) = lcpLen as bs + 1 := by
  simp [lcpLen]

theorem lcpLen_cons_ne (a b : Char) (as bs : List Char) (hab : a ≠ b) :
    lcpLen (a :: as) (b :: bs) = 0 := by
  simp [lcpLen, hab]

theorem lcpLen_take_eq : ∀ as bs : List Char,
    as.take (lcpLen as bs) = bs.take (lcpLen as bs) := by
  intro as
  induction as with
  | nil => intro bs; simp [lcpLen]
  | cons a as ih =>
    intro bs
    cases bs with
    | nil => simp [lcpLen]
    | cons b bs =>
      by_cases hab : a = b
      · subst hab
        simp [lcpLen, List.take_succ_cons, ih bs]
      · simp [lcpLen, hab]

theorem findDiff_spec : ∀ (as bs : List Char) (i : Nat),
    (lcpLen as bs = min as.length bs.length ∧
      List.findSome? diffAt
        ((charIndicesFrom i as).zip (charIndicesFrom i bs)) = none) ∨
    (lcpLen as bs < min as.length bs.length ∧
      List.findSome? diffAt
        ((charIndicesFrom i as).zip (charIndicesFrom i bs)) =
        some (i + utf8Len (as.take (lcpLen as bs)))) := by
  intro as
  induction as with
  | nil =>
    intro bs i
    left
    constructor
    · simp [lcpLen]
    · simp [charIndicesFrom]
  | cons a as ih =>
    intro bs i
    cases bs with
    | nil =>
      left
      constructor
      · simp [lcpLen]
      · simp [charIndicesFrom]
    | cons b bs =>
      by_cases hab : a = b
      · subst hab
        have hhead : diffAt ((i, a), (i, a)) = none := by simp [diffAt]
        rcases ih bs (i + a.utf8Size) with ⟨h1, h2⟩ | ⟨h1, h2⟩
        · left
          constructor
          · rw [lcpLen_cons_self]
            simp only [List.length_cons, Nat.succ_min_succ]
            omega
          · simp only [charIndicesFrom, List.zip_cons_cons, List.findSome?_cons, hhead]
            exact h2
        · right
          constructor
          · rw [lcpLen_cons_self]
            simp only [List.length_cons, Nat.succ_min_succ]
            omega
          · simp only [charIndicesFrom, List.zip_cons_cons, List.findSome?_cons, hhead]
            rw [h2, lcpLen_cons_self, List.take_succ_cons, utf8Len_cons]
            congr 1
            omega
      · right
        constructor
        · rw [lcpLen_cons_ne a b as bs hab]
          simp only [List.length_cons]
          omega
        · simp only [charIndicesFrom, List.zip_cons_cons, List.findSome?_cons]
          rw [show diffAt ((i, a), (i, b)) = some i from by simp [diffAt, hab],
            lcpLen_cons_ne a b as bs hab]
          simp [utf8Len]

theorem sliceChars_zero : ∀ cs : List Char, sliceChars 0 cs = cs := by
  intro cs
  cases cs <;> simp [sliceChars]

theorem sliceFrom_zero (s : String) : sliceFrom s 0 = s := by
  unfold sliceFrom
  rw [sliceChars_zero]

theorem sliceChars_take : ∀ (cs : List Char) (k : Nat), k ≤ cs.length →
    sliceChars (utf8Len (cs.take k)) cs = cs.drop k := by
  intro cs
  induction cs with
  | nil =>
    intro k _
    simp [sliceChars]
  | cons c cs ih =>
    intro k hk
    cases k with
    | zero => simp [utf8Len, sliceChars]
    | succ k =>
      have hsz := Char.utf8Size_pos c
      simp only [List.take_succ_cons, utf8Len_cons, sliceChars, List.drop_succ_cons]
      rw [if_neg (by omega),
        show c.utf8Size + utf8Len (cs.take k) - c.utf8Size = utf8Len (cs.take k) from by
          omega]
      exact ih k (by simpa using hk)

theorem zero_mem_boundaries (s : String) : 0 ∈ boundariesOf s :=
  List.mem_map.mpr ⟨0, List.mem_range.mpr (by omega), by simp [utf8Len]⟩

theorem utf8Len_take_mem (s : String) (k : Nat) (hk : k ≤ s.data.length) :
    utf8Len (s.data.take k) ∈ boundariesOf s :=
  List.mem_map.mpr ⟨k, List.mem_range.mpr (by omega), rfl⟩

/-- C10: the divergence index computed during shared-prefix trimming is a valid
character-boundary byte offset in both engine identity strings (all characters before
it compare equal, and equal characters have equal UTF-8 length, so the offsets of the
two char_indices walks agree), hence the two slices taken at that index in write never
cut a character in half. -/
theorem C10_boundary_safe : ∀ a b : String,
    sharedPrefixEnd a b ∈ boundariesOf a ∧ sharedPrefixEnd a b ∈ boundariesOf b := by
  intro a b
  rcases findDiff_spec a.data b.data 0 with ⟨h1, h2⟩ | ⟨h1, h2⟩
  · have h0 : sharedPrefixEnd a b = 0 := by
      unfold sharedPrefixEnd
      rw [h2]
      rfl
    rw [h0]
    exact ⟨zero_mem_boundaries a, zero_mem_boundaries b⟩
  · have h0 : sharedPrefixEnd a b =
        utf8Len (a.data.take (lcpLen a.data b.data)) := by
      unfold sharedPrefixEnd
      rw [h2]
      simp
    constructor
    · rw [h0]
      exact utf8Len_take_mem a _ (by omega)
    · rw [h0, show utf8Len (a.data.take (lcpLen a.data b.data)) =
          utf8Len (b.data.take (lcpLen a.data b.data)) from by
        rw [lcpLen_take_eq a.data b.data]]
      exact utf8Len_take_mem b _ (by omega)

/-- C8: write trims exactly the longest shared prefix (case-sensitive character-wise
comparison; lcpLen characters) from both engine identity strings when a divergence
point exists, and displays both full strings unmodified when no divergence point
exists within the zipped traversal (one string is a prefix of the other or they are
equal, that is, the longest shared prefix covers the shorter string). -/
theorem C8_shared_prefix_trim : ∀ a b : String,
    a.data.take (lcpLen a.data b.data) = b.data.take (lcpLen a.data b.data) ∧
    (lcpLen a.data b.data < min a.data.length b.data.length →
      sliceFrom a (sharedPrefixEnd a b) = ⟨a.data.drop (lcpLen a.data b.data)⟩ ∧
      sliceFrom b (sharedPrefixEnd a b) = ⟨b.data.drop (lcpLen a.data b.data)⟩) ∧
    (lcpLen a.data b.data = min a.data.length b.data.length →
      sliceFrom a (sharedPrefixEnd a b) = a ∧
      sliceFrom b (sharedPrefixEnd a b) = b) := by
  intro a b
  refine ⟨lcpLen_take_eq a.data b.data, ?_, ?_⟩
  · intro hlt
    rcases findDiff_spec a.data b.data 0 with ⟨h1, h2⟩ | ⟨h1, h2⟩
    · omega
    · have h0 : sharedPrefixEnd a b =
          utf8Len (a.data.take (lcpLen a.data b.data)) := by
        unfold sharedPrefixEnd
        rw [h2]
        simp
      constructor
      · rw [h0]
        unfold sliceFrom
        rw [sliceChars_take a.data _ (by omega)]
      · rw [h0, show utf8Len (a.data.take (lcpLen a.data b.data)) =
            utf8Len (b.data.take (lcpLen a.data b.data)) from by
          rw [lcpLen_take_eq a.data b.data]]
        unfold sliceFrom
        rw [sliceChars_take b.data _ (by omega)]
  · intro heq
    rcases findDiff_spec a.data b.data 0 with ⟨h1, h2⟩ | ⟨h1, h2⟩
    · have h0 : sharedPrefixEnd a b = 0 := by
        unfold sharedPrefixEnd
        rw [h2]
        rfl
      rw [h0]
      exact ⟨sliceFrom_zero a, sliceFrom_zero b⟩
    · omega

/-- Witness for C8 on two concrete engine paths sharing the prefix of length 7. -/
theorem C8_shared_prefix_trim_witness :
    sliceFrom "target/a.so" (sharedPrefixEnd "target/a.so" "target/b.so") =
      ⟨("target/a.so" : String).data.drop
        (lcpLen ("target/a.so" : String).data ("target/b.so" : String).data)⟩ ∧
    sliceFrom "target/b.so" (sharedPrefixEnd "target/a.so" "target/b.so") =
      ⟨("target/b.so" : String).data.drop
        (lcpLen ("target/a.so" : String).data ("target/b.so" : String).data)⟩ :=
  (C8_shared_prefix_trim "target/a.so" "target/b.so").2.1 (by decide)

/-- Witness for C5 at a concrete singleton input. -/
theorem C5_sort_order_witness :
    write [e7] [] (1/2) = writeRender [] (1/2) (sortEffectSizes [e7]) ∧
    (sortEffectSizes [e7]).Perm [e7] :=
  ⟨(C5_sort_order [e7] [] (1/2)).1, (C5_sort_order [e7] [] (1/2)).2.1⟩

/-- Witness for C6: the equivalence instantiated at a concrete entry whose summary
lookup fails on the empty summary collection. -/
theorem C6_missing_summary_witness : write [e7] [] (1/20) = none :=
  (C6_missing_summary_amended [e7] [] (1/20)).mpr
    ⟨e7, List.mem_singleton_self e7, Or.inl rfl⟩

/-- Witness for C9: the round trip at the Execution phase. -/
theorem C9_phase_tokens_roundtrip_witness :
    Phase.from_str Phase.Execution.fmt = Except.ok Phase.Execution :=
  C9_phase_tokens_roundtrip.2 Phase.Execution

/-- Witness for C10 on concrete strings containing a multi-byte character. -/
theorem C10_boundary_safe_witness :
    sharedPrefixEnd "héllo" "héllq" ∈ boundariesOf "héllo" ∧
    sharedPrefixEnd "héllo" "héllq" ∈ boundariesOf "héllq" :=
  C10_boundary_safe "héllo" "héllq"

end Sightglass
